import Mathlib

/-!
Shallow embedding of the core extraction, idempotency, inference and routing
logic of the notion-for-me repository (JavaScript), together with theorems
checking its natural-language specification against the code.

Conventions used throughout:
* JS strings are Lean `String`s; `text.includes(sub)` is `jsIncludes`,
  `text.toLowerCase()` is `jsToLower` (char-wise, ASCII), `text.trim()` is
  `jsTrim`.
* Notion blocks are modelled by `Block`: `type` is the block's type string and
  `richText` the list of `plain_text` fragments of the payload under
  `block[block.type].rich_text`.
* Remote calls (Notion API, OpenAI, crypto digest) are external collaborators;
  their outcomes enter the embedding as explicit parameters, and the persisted
  side effects of a run are returned as an explicit action trace.
-/

namespace NFM

/-- `sub` occurs at the head of `l` (char-wise). -/
def startsWith : List Char → List Char → Bool
  | _, [] => true
  | [], _ :: _ => false
  | c :: cs, d :: ds => c == d && startsWith cs ds

/-- `sub` occurs contiguously somewhere inside `l`. -/
def hasSubList : List Char → List Char → Bool
  | [], sub => sub.isEmpty
  | c :: rest, sub => startsWith (c :: rest) sub || hasSubList rest sub

/-- JS `String.prototype.includes`: substring containment. -/
def jsIncludes (s sub : String) : Bool := hasSubList s.data sub.data

/-- JS `String.prototype.toLowerCase`, char-wise (ASCII range). -/
def jsToLower (s : String) : String := String.mk (s.data.map Char.toLower)

/-- JS `String.prototype.trim`: strip leading and trailing whitespace. -/
def jsTrim (s : String) : String :=
  String.mk (((s.data.dropWhile Char.isWhitespace).reverse.dropWhile
    Char.isWhitespace).reverse)

theorem startsWith_map (f : Char → Char) :
    ∀ (l sub : List Char), startsWith l sub = true →
      startsWith (l.map f) (sub.map f) = true := by
  intro l sub
  induction sub generalizing l with
  | nil => intro _; cases l <;> rfl
  | cons d ds ih =>
    intro h
    cases l with
    | nil => simp [startsWith] at h
    | cons c cs =>
      simp only [startsWith, Bool.and_eq_true, beq_iff_eq] at h
      simp only [List.map_cons, startsWith, Bool.and_eq_true, beq_iff_eq]
      exact ⟨by rw [h.1], ih cs h.2⟩

theorem hasSubList_map (f : Char → Char) :
    ∀ (l sub : List Char), hasSubList l sub = true →
      hasSubList (l.map f) (sub.map f) = true := by
  intro l sub
  induction l with
  | nil =>
    intro h
    simp only [hasSubList, List.isEmpty_iff] at h
    simp [h, hasSubList]
  | cons c rest ih =>
    intro h
    simp only [hasSubList, Bool.or_eq_true] at h
    rcases h with h | h
    · simp only [List.map_cons, hasSubList, Bool.or_eq_true]
      exact Or.inl (startsWith_map f (c :: rest) sub h)
    · simp only [List.map_cons, hasSubList, Bool.or_eq_true]
      exact Or.inr (ih h)

/-- If `sub` is fixed by char-wise lowering, a substring occurrence in `s`
survives lowering `s`. -/
theorem jsIncludes_jsToLower (s sub : String) (hsub : jsToLower sub = sub)
    (h : jsIncludes s sub = true) : jsIncludes (jsToLower s) sub = true := by
  have hdata : sub.data.map Char.toLower = sub.data := congrArg String.data hsub
  have := hasSubList_map Char.toLower s.data sub.data h
  rw [hdata] at this
  exact this

/-! ## Idempotency key generator (`generateLineKey`, src/unnamed/part_005) -/

/-- `generateLineKey(meetingId, todoText)`: trim and lower-case the item text,
join it to the parent document id with a `":"` separator, and digest.  The
sha256 digest comes from Node's `crypto` module, which is external to the
repository; it is abstracted as an arbitrary function `hash`, so every theorem
below holds for the real digest in particular. -/
def generateLineKey (hash : String → String) (meetingId todoText : String) : String :=
  hash (meetingId ++ ":" ++ jsToLower (jsTrim todoText))

/-- C2: for every parent id `p` and text `t`, `key(p,t) = key(p,t)`
(determinism), and `key(p,T) = key(p,t)` whenever `T` and `t` canonicalize
(trim + case-fold) to the same string — in particular for casing and
leading/trailing-whitespace variants. -/
theorem generateLineKey_c2 (hash : String → String) (p t T : String)
    (h : jsToLower (jsTrim T) = jsToLower (jsTrim t)) :
    generateLineKey hash p t = generateLineKey hash p t ∧
    generateLineKey hash p T = generateLineKey hash p t := by
  refine ⟨rfl, ?_⟩
  unfold generateLineKey
  rw [h]

theorem generateLineKey_c2_witness :
    generateLineKey (fun s => s) "meeting-1" "  Email KAREN " =
      generateLineKey (fun s => s) "meeting-1" "email karen" :=
  (generateLineKey_c2 (fun s => s) "meeting-1" "email karen" "  Email KAREN "
    (by decide)).2

/-! ## Reprocessing decider (`shouldProcessMeeting`, src/unnamed/part_005) -/

/-- A meeting page, as read by `shouldProcessMeeting`: the `Processed`
checkbox (absent property read as `undefined`, hence `none`), the
`Last Processed` date (optional), and the externally maintained
`last_edited_time`.  Timestamps are modelled as integers (epoch
milliseconds), with `<` matching JS `Date` comparison. -/
structure MeetingPage where
  processedCheckbox : Option Bool
  lastProcessedStart : Option Int
  lastEditedTime : Int

/-- `shouldProcessMeeting(page)` from src/unnamed/part_005. -/
def shouldProcessMeeting (p : MeetingPage) : Bool :=
  let processed := p.processedCheckbox.getD false
  if !processed then
    true
  else
    match p.lastProcessedStart with
    | some lp => if lp < p.lastEditedTime then true else false
    | none => false

/-- C3: a document with `processed = false` is always processed; with
`processed = true` and `lastProcessedAt` set it is processed iff
`lastEditedAt` is strictly later (so equal timestamps give `false`); with
`processed = true` and `lastProcessedAt` unset it is not processed. -/
theorem shouldProcessMeeting_c3 (p : MeetingPage) :
    (p.processedCheckbox.getD false = false → shouldProcessMeeting p = true) ∧
    (∀ lp, p.processedCheckbox.getD false = true →
      p.lastProcessedStart = some lp →
      shouldProcessMeeting p = decide (lp < p.lastEditedTime)) ∧
    (p.processedCheckbox.getD false = true → p.lastProcessedStart = none →
      shouldProcessMeeting p = false) := by
  refine ⟨?_, ?_, ?_⟩
  · intro h
    simp [shouldProcessMeeting, h]
  · intro lp h hlp
    simp only [shouldProcessMeeting, h, Bool.not_true, if_false, hlp]
    by_cases hc : lp < p.lastEditedTime <;> simp [hc]
  · intro h hnone
    simp [shouldProcessMeeting, h, hnone]

theorem shouldProcessMeeting_c3_witness :
    shouldProcessMeeting ⟨some false, none, 0⟩ = true ∧
    shouldProcessMeeting ⟨some true, some 5, 5⟩ = false ∧
    shouldProcessMeeting ⟨some true, some 5, 6⟩ = true ∧
    shouldProcessMeeting ⟨some true, none, 100⟩ = false := by
  refine ⟨?_, ?_, ?_, ?_⟩
  · exact (shouldProcessMeeting_c3 ⟨some false, none, 0⟩).1 rfl
  · have h := (shouldProcessMeeting_c3 ⟨some true, some 5, 5⟩).2.1 5 rfl rfl
    rw [h]; decide
  · have h := (shouldProcessMeeting_c3 ⟨some true, some 5, 6⟩).2.1 5 rfl rfl
    rw [h]; decide
  · exact (shouldProcessMeeting_c3 ⟨some true, none, 100⟩).2.2 rfl rfl

/-! ## Priority parser (`parsePriority`, src/unnamed/part_004) -/

def highKeywords : List String :=
  ["urgent", "asap", "critical", "emergency", "immediately",
   "high priority", "top priority", "blocking", "must have",
   "important", "crucial"]

def lowKeywords : List String :=
  ["nice to have", "when you can", "low priority",
   "optional", "future", "someday", "backlog",
   "eventually", "if time"]

/-- `parsePriority(text)` from src/unnamed/part_004. -/
def parsePriority (text : String) : String :=
  let textLower := jsToLower text
  let highCount := (highKeywords.filter fun k => jsIncludes textLower k).length
  let lowCount := (lowKeywords.filter fun k => jsIncludes textLower k).length
  if highCount ≥ 2 || jsIncludes textLower "high priority" ||
      jsIncludes textLower "urgent" then
    "High"
  else if lowCount ≥ 1 || jsIncludes textLower "low priority" then
    "Low"
  else
    "Medium"

/-- C10: `parsePriority` is total with range {High, Medium, Low}; any text
containing `urgent` or `high priority` yields `High` (the high rule is
evaluated first, so low keywords present alongside cannot override it); a
text matching at least one low keyword while the high rule fails yields
`Low`; and a text triggering neither rule yields `Medium`. -/
theorem parsePriority_c10 (text : String) :
    (parsePriority text = "High" ∨ parsePriority text = "Medium" ∨
      parsePriority text = "Low") ∧
    (jsIncludes text "urgent" = true ∨ jsIncludes text "high priority" = true →
      parsePriority text = "High") ∧
    ((highKeywords.filter fun k => jsIncludes (jsToLower text) k).length < 2 →
      jsIncludes (jsToLower text) "high priority" = false →
      jsIncludes (jsToLower text) "urgent" = false →
      (∃ k ∈ lowKeywords, jsIncludes (jsToLower text) k = true) →
      parsePriority text = "Low") ∧
    ((highKeywords.filter fun k => jsIncludes (jsToLower text) k).length < 2 →
      jsIncludes (jsToLower text) "high priority" = false →
      jsIncludes (jsToLower text) "urgent" = false →
      (∀ k ∈ lowKeywords, jsIncludes (jsToLower text) k = false) →
      parsePriority text = "Medium") := by
  refine ⟨?_, ?_, ?_, ?_⟩
  · simp only [parsePriority]
    split
    · exact Or.inl rfl
    · split
      · exact Or.inr (Or.inr rfl)
      · exact Or.inr (Or.inl rfl)
  · intro h
    have hlow : jsIncludes (jsToLower text) "urgent" = true ∨
        jsIncludes (jsToLower text) "high priority" = true := by
      rcases h with h | h
      · exact Or.inl (jsIncludes_jsToLower text "urgent" (by decide) h)
      · exact Or.inr (jsIncludes_jsToLower text "high priority" (by decide) h)
    unfold parsePriority
    rcases hlow with h | h <;> simp [h]
  · intro h1 h2 h3 h4
    unfold parsePriority
    have hcnt : ((highKeywords.filter fun k =>
        jsIncludes (jsToLower text) k).length ≥ 2) = False := by
      simp only [eq_iff_iff, iff_false]
      omega
    have hlow1 : 1 ≤ (lowKeywords.filter fun k =>
        jsIncludes (jsToLower text) k).length := by
      rcases h4 with ⟨k, hk, hik⟩
      have : k ∈ lowKeywords.filter fun k => jsIncludes (jsToLower text) k :=
        List.mem_filter.2 ⟨hk, hik⟩
      exact List.length_pos.2 (List.ne_nil_of_mem this)
    simp [h2, h3, hcnt, hlow1]
  · intro h1 h2 h3 h4
    unfold parsePriority
    have hcnt : ((highKeywords.filter fun k =>
        jsIncludes (jsToLower text) k).length ≥ 2) = False := by
      simp only [eq_iff_iff, iff_false]
      omega
    have hfil : (lowKeywords.filter fun k =>
        jsIncludes (jsToLower text) k) = [] := by
      apply List.filter_eq_nil_iff.2
      intro k hk
      simp [h4 k hk]
    have hlp : jsIncludes (jsToLower text) "low priority" = false :=
      h4 "low priority" (by decide)
    simp [h2, h3, hcnt, hfil, hlp]

theorem parsePriority_c10_witness :
    parsePriority "urgent but optional and nice to have" = "High" ∧
    parsePriority "this one is optional" = "Low" ∧
    parsePriority "write the report" = "Medium" := by
  refine ⟨?_, ?_, ?_⟩
  · exact (parsePriority_c10 "urgent but optional and nice to have").2.1
      (Or.inl (by decide))
  · exact (parsePriority_c10 "this one is optional").2.2.1 (by decide)
      (by decide) (by decide) ⟨"optional", by decide, by decide⟩
  · exact (parsePriority_c10 "write the report").2.2.2 (by decide) (by decide)
      (by decide) (by decide)

/-! ## Content nodes and the section scanner -/

/-- A Notion content block: `id`, the block's `type` string, and the
`plain_text` fragments of `block[block.type].rich_text`. -/
structure Block where
  id : String
  type : String
  richText : List String
deriving DecidableEq, Repr

/-- `block.type.includes('heading')`. -/
def isHeadingBlock (b : Block) : Bool := jsIncludes b.type "heading"

/-- Heading text as computed in `findProjectInfoSection`
(src/unnamed/part_002): rich text joined, lower-cased, then trimmed. -/
def blockTextLower (b : Block) : String :=
  jsTrim (jsToLower (String.join b.richText))

/-- Heading/content text as computed in the quick-todo and project-page
modules: rich text joined and trimmed (no lower-casing). -/
def blockTextTrim (b : Block) : String := jsTrim (String.join b.richText)

/-- The heading-scan loop that `findProjectInfoSection`,
`extractSectionContent` and `deleteSection` each contain (textually
duplicated in the source, with their own matching predicate `match_`): walk
the blocks in order; a heading satisfying `match_` records its index and
`continue`s, so a later still-matching heading overwrites the recorded index;
the first heading seen after a recorded match that does not itself match ends
the scan.  Returns the recorded index paired with the index of the
terminating heading (`none` when the scan ran off the end). -/
def sectionLoop (match_ : Block → Bool) :
    List Block → Nat → Option Nat → Option (Nat × Option Nat)
  | [], _, found => found.map fun s => (s, none)
  | b :: rest, i, found =>
    if isHeadingBlock b then
      if match_ b then
        sectionLoop match_ rest (i + 1) (some i)
      else
        match found with
        | some s => some (s, some i)
        | none => sectionLoop match_ rest (i + 1) none
    else
      sectionLoop match_ rest (i + 1) found

/-- A half-open index range over a block sequence. -/
structure SectionRange where
  startIndex : Nat
  endIndex : Nat
deriving DecidableEq, Repr

/-- The heading predicate of `findProjectInfoSection`. -/
def matchesProjectInfo (b : Block) : Bool :=
  jsIncludes (blockTextLower b) "project information" ||
  jsIncludes (blockTextLower b) "project info"

/-- `findProjectInfoSection(blocks)` from src/unnamed/part_002. -/
def findProjectInfoSection (blocks : List Block) : Option SectionRange :=
  match sectionLoop matchesProjectInfo blocks 0 none with
  | none => none
  | some (s, some j) => some ⟨s, j⟩
  | some (s, none) => some ⟨s, blocks.length⟩

/-- Two adjacent matching headings followed by a paragraph. -/
def c1Blocks : List Block :=
  [⟨"b0", "heading_2", ["Project Info"]⟩,
   ⟨"b1", "heading_2", ["Project Information"]⟩,
   ⟨"b2", "paragraph", ["hello"]⟩]

/-- C1 counterexample: in `c1Blocks` the first matching heading is at index 0
and the next heading (index 1) follows it, so the claim predicts the section
`{start := 0, end := 1}`; the code instead lets the second, still-matching
heading overwrite `start` and returns `{start := 1, end := 3}`. -/
theorem findProjectInfoSection_c1_counterexample :
    isHeadingBlock (c1Blocks.get ⟨0, by decide⟩) = true ∧
    matchesProjectInfo (c1Blocks.get ⟨0, by decide⟩) = true ∧
    isHeadingBlock (c1Blocks.get ⟨1, by decide⟩) = true ∧
    findProjectInfoSection c1Blocks ≠ some ⟨0, 1⟩ ∧
    findProjectInfoSection c1Blocks = some ⟨1, 3⟩ := by decide

theorem sectionLoop_skip (match_ : Block → Bool) (P : List Block)
    (hP : ∀ b ∈ P, ¬(isHeadingBlock b = true ∧ match_ b = true)) :
    ∀ (rest : List Block) (i : Nat),
      sectionLoop match_ (P ++ rest) i none =
        sectionLoop match_ rest (i + P.length) none := by
  induction P with
  | nil => intro rest i; simp
  | cons p ps ih =>
    intro rest i
    have hp := hP p (List.mem_cons_self p ps)
    have ih' := ih fun b hb => hP b (List.mem_cons_of_mem p hb)
    by_cases hh : isHeadingBlock p = true
    · have hm : match_ p = false := by
        cases hmp : match_ p
        · rfl
        · exact absurd ⟨hh, hmp⟩ hp
      simp only [List.cons_append, sectionLoop, hh, if_true, hm,
        Bool.false_eq_true, if_false, List.append_eq]
      rw [ih' rest (i + 1), List.length_cons]
      have he : i + 1 + ps.length = i + (ps.length + 1) := by omega
      rw [he]
    · have hh' : isHeadingBlock p = false := by
        cases hpb : isHeadingBlock p
        · rfl
        · exact absurd hpb hh
      simp only [List.cons_append, sectionLoop, hh', Bool.false_eq_true,
        if_false, List.append_eq]
      rw [ih' rest (i + 1), List.length_cons]
      have he : i + 1 + ps.length = i + (ps.length + 1) := by omega
      rw [he]

theorem sectionLoop_noHeads (match_ : Block → Bool) (M : List Block)
    (hM : ∀ b ∈ M, isHeadingBlock b = false) :
    ∀ (rest : List Block) (i s : Nat),
      sectionLoop match_ (M ++ rest) i (some s) =
        sectionLoop match_ rest (i + M.length) (some s) := by
  induction M with
  | nil => intro rest i s; simp
  | cons m ms ih =>
    intro rest i s
    have hm := hM m (List.mem_cons_self m ms)
    have ih' := ih fun b hb => hM b (List.mem_cons_of_mem m hb)
    simp only [List.cons_append, sectionLoop, hm, Bool.false_eq_true, if_false,
      List.append_eq]
    rw [ih' rest (i + 1) s, List.length_cons]
    have he : i + 1 + ms.length = i + (ms.length + 1) := by omega
    rw [he]

/-- C1 (amended): let the *last* heading of the initial run of matching
headings (matching headings separated only by non-heading blocks) be at index
`s = P.length + ...`; in the shape below, `P` holds no matching heading, `H`
is a matching heading and `M` holds no heading at all, so the recorded start
is `P.length`.  Then: if the next heading `H'` does **not** match, the
section is `{start := P.length, end := index of H'}` — so a repeated matching
heading *after a non-matching heading* is ignored; and with no further
heading at all the section ends at `len(nodes)`.  (The unamended claim fails
only when the next heading after the first match itself matches: it then
overwrites `start`, see the counterexample.) -/
theorem findProjectInfoSection_c1_amended
    (P M : List Block) (H : Block)
    (hP : ∀ b ∈ P, ¬(isHeadingBlock b = true ∧ matchesProjectInfo b = true))
    (hH : isHeadingBlock H = true) (hHm : matchesProjectInfo H = true)
    (hM : ∀ b ∈ M, isHeadingBlock b = false) :
    (∀ (H' : Block) (R : List Block), isHeadingBlock H' = true →
      matchesProjectInfo H' = false →
      findProjectInfoSection (P ++ (H :: (M ++ H' :: R))) =
        some ⟨P.length, P.length + 1 + M.length⟩) ∧
    findProjectInfoSection (P ++ H :: M) =
      some ⟨P.length, (P ++ H :: M).length⟩ := by
  constructor
  · intro H' R hH' hH'm
    have hval : sectionLoop matchesProjectInfo (P ++ (H :: (M ++ H' :: R))) 0 none
        = some (P.length, some (P.length + 1 + M.length)) := by
      rw [sectionLoop_skip matchesProjectInfo P hP (H :: (M ++ H' :: R)) 0]
      simp only [sectionLoop, hH, if_true, hHm]
      rw [sectionLoop_noHeads matchesProjectInfo M hM (H' :: R)
        (0 + P.length + 1) (0 + P.length)]
      simp only [sectionLoop, hH', if_true, hH'm, Bool.false_eq_true, if_false]
      simp
    simp only [findProjectInfoSection, hval]
  · have hval : sectionLoop matchesProjectInfo (P ++ H :: M) 0 none
        = some (P.length, (none : Option Nat)) := by
      rw [sectionLoop_skip matchesProjectInfo P hP (H :: M) 0]
      simp only [sectionLoop, hH, if_true, hHm]
      have hM' : sectionLoop matchesProjectInfo (M ++ []) (0 + P.length + 1)
          (some (0 + P.length)) =
          sectionLoop matchesProjectInfo [] (0 + P.length + 1 + M.length)
            (some (0 + P.length)) :=
        sectionLoop_noHeads matchesProjectInfo M hM [] (0 + P.length + 1)
          (0 + P.length)
      rw [List.append_nil] at hM'
      rw [hM']
      simp [sectionLoop]
    simp only [findProjectInfoSection, hval]

theorem findProjectInfoSection_c1_witness :
    findProjectInfoSection
      [⟨"w0", "paragraph", ["intro"]⟩,
       ⟨"w1", "heading_2", ["Project Information"]⟩,
       ⟨"w2", "bulleted_list_item", ["api key"]⟩,
       ⟨"w3", "heading_2", ["Next Steps"]⟩,
       ⟨"w4", "heading_2", ["Project Information"]⟩] = some ⟨1, 3⟩ ∧
    findProjectInfoSection
      [⟨"v0", "heading_2", ["Project Info"]⟩,
       ⟨"v1", "paragraph", ["x"]⟩] = some ⟨0, 2⟩ := by
  constructor
  · exact (findProjectInfoSection_c1_amended
      [⟨"w0", "paragraph", ["intro"]⟩] [⟨"w2", "bulleted_list_item", ["api key"]⟩]
      ⟨"w1", "heading_2", ["Project Information"]⟩
      (by decide) (by decide) (by decide) (by decide)).1
      ⟨"w3", "heading_2", ["Next Steps"]⟩
      [⟨"w4", "heading_2", ["Project Information"]⟩] (by decide) (by decide)
  · exact (findProjectInfoSection_c1_amended
      [] [⟨"v1", "paragraph", ["x"]⟩] ⟨"v0", "heading_2", ["Project Info"]⟩
      (by decide) (by decide) (by decide) (by decide)).2

/-! ## Project inference (src/unnamed/part_006) -/

/-- The fixed `PROJECT_KEYWORDS` table in its source (insertion) order, which
is the iteration order of `Object.entries`. -/
def PROJECT_KEYWORDS : List (String × List String) :=
  [("ClickUp", ["clickup", "click up", "click-up", "cu", "cuarc"]),
   ("Docebo", ["docebo", "lms", "learning management", "cogent uni", "uni"]),
   ("HubSpot", ["hubspot", "crm", "hs", "hub spot"]),
   ("AI Sales", ["ai sales", "retell", "retellai", "retell ai", "sai",
     "sales ai"]),
   ("Insider Knowledge", ["insider", "insider knowledge", "ik", "merlin"]),
   ("PD OTN", ["pd", "otn", "pd otn", "professional development"]),
   ("Podcast", ["podcast", "episode", "recording", "riverside"]),
   ("Quarterly Economic Review", ["qer", "economic review", "quarterly",
     "eco repo"]),
   ("Support/Other", [])]

/-- JS regex `\w`: ASCII word char. -/
def isWordChar (c : Char) : Bool := c.isAlphanum || c == '_'

/-- The regex `/#proj:(\w+)/i` anchored at the head of `cs`: the literal
`#proj:` case-insensitively, then at least one word char; returns the
captured word-char run. -/
def projTagAt (cs : List Char) : Option (List Char) :=
  if (cs.take 6).map Char.toLower = "#proj:".data then
    let tok := (cs.drop 6).takeWhile isWordChar
    if tok.isEmpty then none else some tok
  else none

/-- Leftmost match of `/#proj:(\w+)/i` in a char sequence, as
`String.prototype.match` finds it. -/
def findProjTag : List Char → Option (List Char)
  | [] => none
  | c :: cs =>
    match projTagAt (c :: cs) with
    | some tok => some tok
    | none => findProjTag cs

/-- An inference result `{ project, confidence }`; the JS float confidence is
modelled as an exact rational (only 0, 0.8 and 1.0 occur). -/
structure Inference where
  project : String
  confidence : ℚ
deriving DecidableEq, Repr

/-- `extractHashtagProject(blocks)` from src/unnamed/part_006: scan paragraph
blocks for a `#proj:` tag; on a tag whose lower-cased token is contained in a
project's lower-cased name or in one of its keywords, return that project
with confidence 1.0; a tag matching no project keeps scanning. -/
def extractHashtagProject : List Block → Option Inference
  | [] => none
  | b :: rest =>
    if b.type == "paragraph" then
      match findProjTag (String.join b.richText).data with
      | some tok =>
        match PROJECT_KEYWORDS.find? (fun pk =>
            jsIncludes (jsToLower pk.1) (jsToLower (String.mk tok)) ||
            pk.2.any fun kw => jsIncludes kw (jsToLower (String.mk tok))) with
        | some pk => some ⟨pk.1, 1⟩
        | none => extractHashtagProject rest
      | none => extractHashtagProject rest
    else extractHashtagProject rest

/-- `inferProject(meetingTitle, blocks)` from src/unnamed/part_006 (the
source's third parameter `threshold` is unused by the body and omitted): a
hashtag override wins outright; otherwise the first project other than
Support/Other with a keyword contained in the lower-cased title wins with
confidence 0.8; otherwise Support/Other with confidence 0.0. -/
def inferProject (meetingTitle : String) (blocks : List Block) : Inference :=
  match extractHashtagProject blocks with
  | some r => r
  | none =>
    match PROJECT_KEYWORDS.find? (fun pk =>
        (pk.1 != "Support/Other") &&
        pk.2.any fun kw => jsIncludes (jsToLower meetingTitle) kw) with
    | some pk => ⟨pk.1, (8 : ℚ) / 10⟩
    | none => ⟨"Support/Other", 0⟩

/-- `needsReview(confidence, threshold)` from src/unnamed/part_006. -/
def needsReview (confidence threshold : ℚ) : Bool := confidence < threshold

theorem extractHashtagProject_confidence :
    ∀ (blocks : List Block) (r : Inference),
      extractHashtagProject blocks = some r → r.confidence = 1 := by
  intro blocks
  induction blocks with
  | nil => intro r h; simp [extractHashtagProject] at h
  | cons b rest ih =>
    intro r h
    simp only [extractHashtagProject] at h
    by_cases hp : (b.type == "paragraph") = true
    · rw [if_pos hp] at h
      cases htag : findProjTag (String.join b.richText).data with
      | none =>
        simp only [htag] at h
        exact ih r h
      | some tok =>
        simp only [htag] at h
        cases hfind : PROJECT_KEYWORDS.find? (fun pk =>
            jsIncludes (jsToLower pk.1) (jsToLower (String.mk tok)) ||
            pk.2.any fun kw => jsIncludes kw (jsToLower (String.mk tok))) with
        | none =>
          simp only [hfind] at h
          exact ih r h
        | some pk =>
          simp only [hfind, Option.some_inj] at h
          rw [← h]
    · rw [if_neg hp] at h
      exact ih r h

/-- C7: whenever some paragraph block carries a `#proj:<token>` override whose
token matches a known project — the condition under which
`extractHashtagProject` produces a result — `inferProject` returns exactly
that result, and its confidence is 1.0, regardless of the title (which never
enters this code path). -/
theorem inferProject_c7 (meetingTitle : String) (blocks : List Block)
    (r : Inference) (h : extractHashtagProject blocks = some r) :
    inferProject meetingTitle blocks = r ∧ r.confidence = 1 := by
  constructor
  · simp only [inferProject, h]
  · exact extractHashtagProject_confidence blocks r h

/-- One paragraph carrying `#proj:hubspot` inside a document whose title
would otherwise match ClickUp. -/
def c7Blocks : List Block :=
  [⟨"p0", "paragraph", ["note ", "#proj:hubspot today"]⟩]

theorem inferProject_c7_witness :
    inferProject "ClickUp weekly sync" c7Blocks = ⟨"HubSpot", 1⟩ ∧
    (inferProject "ClickUp weekly sync" []).project = "ClickUp" := by
  constructor
  · exact (inferProject_c7 "ClickUp weekly sync" c7Blocks ⟨"HubSpot", 1⟩
      (by decide)).1
  · decide

/-! ## Resilient remote call wrapper (`apiCall`, src/unnamed/part_004) -/

/-- A JS error as inspected by `apiCall`: its `code` string and HTTP
`status`. -/
structure JsError where
  code : String
  status : Nat
deriving DecidableEq, Repr

/-- The transience test of `apiCall`:
`error.code === 'rate_limited' || error.status === 429`. -/
def isTransientErr (e : JsError) : Bool :=
  e.code == "rate_limited" || e.status == 429

def RATE_LIMIT_DELAY : Nat := 350

def MAX_RETRIES : Nat := 5

/-- `getBackoffDelay(attempt)`: exponential backoff (base 1000ms, doubling,
with the exponential part capped at 10000ms) plus the jitter draw
(`Math.random() * 1000`, hence in `[0, 1000)` ms), passed explicitly as
`jitter`. -/
def getBackoffDelay (attempt jitter : Nat) : Nat :=
  min (1000 * 2 ^ attempt) 10000 + jitter

/-- The retry loop of `apiCall`, recursing on the JS loop counter `attempt`,
with `last` playing `lastError`.  `f` gives the outcome of the wrapped call
on each attempt and `jit` the jitter drawn on each attempt, both outcomes of
external collaborators; the result is paired with the ordered list of delays
awaited (the fixed 350ms pacing delay before every attempt, a backoff delay
after every transient failure).  `.error none` would model JS throwing the
never-assigned `lastError`; it is unreachable from `apiCall` because
`MAX_RETRIES > 0`. -/
def apiCallGo (f : Nat → Except JsError Nat) (jit : Nat → Nat)
    (attempt : Nat) (last : Option JsError) :
    Except (Option JsError) Nat × List Nat :=
  if attempt < MAX_RETRIES then
    match f attempt with
    | .ok v => (.ok v, [RATE_LIMIT_DELAY])
    | .error e =>
      if isTransientErr e then
        let rest := apiCallGo f jit (attempt + 1) (some e)
        (rest.1,
          RATE_LIMIT_DELAY :: getBackoffDelay attempt (jit attempt) :: rest.2)
      else (.error (some e), [RATE_LIMIT_DELAY])
  else (.error last, [])
termination_by MAX_RETRIES - attempt
decreasing_by simp_wf; omega

/-- `apiCall(fn, ...args)` from src/unnamed/part_004. -/
def apiCall (f : Nat → Except JsError Nat) (jit : Nat → Nat) :
    Except (Option JsError) Nat × List Nat :=
  apiCallGo f jit 0 none

/-- C8: a non-transient first failure propagates at once — the result depends
only on `f 0`, no retry happens and no backoff delay is awaited; an
everywhere-transient failure is retried up to exactly `MAX_RETRIES = 5`
attempts, each followed by a backoff delay, and then the last error is
thrown; a transient failure does trigger a retry which can succeed; the
backoff is exponential with base `1000 + jitter` ms and the exponential part
capped at 10000ms, with the jitter draw below 1000ms bounding each delay
below 11s. -/
theorem apiCall_c8 (f : Nat → Except JsError Nat) (jit : Nat → Nat) :
    (∀ e, f 0 = .error e → isTransientErr e = false →
      apiCall f jit = (.error (some e), [RATE_LIMIT_DELAY])) ∧
    (∀ e, isTransientErr e = true → (∀ i, i < MAX_RETRIES → f i = .error e) →
      apiCall f jit = (.error (some e),
        [RATE_LIMIT_DELAY, getBackoffDelay 0 (jit 0),
         RATE_LIMIT_DELAY, getBackoffDelay 1 (jit 1),
         RATE_LIMIT_DELAY, getBackoffDelay 2 (jit 2),
         RATE_LIMIT_DELAY, getBackoffDelay 3 (jit 3),
         RATE_LIMIT_DELAY, getBackoffDelay 4 (jit 4)])) ∧
    (∀ e v, f 0 = .error e → isTransientErr e = true → f 1 = .ok v →
      apiCall f jit = (.ok v,
        [RATE_LIMIT_DELAY, getBackoffDelay 0 (jit 0), RATE_LIMIT_DELAY])) ∧
    (∀ j, getBackoffDelay 0 j = 1000 + j) ∧
    (∀ a j, getBackoffDelay a j ≤ 10000 + j ∧
      (j < 1000 → getBackoffDelay a j < 11000)) := by
  refine ⟨?_, ?_, ?_, ?_, ?_⟩
  · intro e h0 ht
    unfold apiCall
    unfold apiCallGo
    simp [h0, ht, MAX_RETRIES]
  · intro e ht h
    have h0 := h 0 (by simp [MAX_RETRIES])
    have h1 := h 1 (by simp [MAX_RETRIES])
    have h2 := h 2 (by simp [MAX_RETRIES])
    have h3 := h 3 (by simp [MAX_RETRIES])
    have h4 := h 4 (by simp [MAX_RETRIES])
    unfold apiCall
    unfold apiCallGo
    unfold apiCallGo
    unfold apiCallGo
    unfold apiCallGo
    unfold apiCallGo
    unfold apiCallGo
    simp [h0, h1, h2, h3, h4, ht, MAX_RETRIES]
  · intro e v h0 ht h1
    unfold apiCall
    unfold apiCallGo
    unfold apiCallGo
    simp [h0, h1, ht, MAX_RETRIES]
  · intro j
    simp [getBackoffDelay]
  · intro a j
    constructor
    · have := min_le_right (1000 * 2 ^ a) 10000
      unfold getBackoffDelay
      omega
    · intro hj
      have := min_le_right (1000 * 2 ^ a) 10000
      unfold getBackoffDelay
      omega

theorem apiCall_c8_witness :
    apiCall (fun _ => .error ⟨"validation_error", 400⟩) (fun _ => 0)
        = (.error (some ⟨"validation_error", 400⟩), [RATE_LIMIT_DELAY]) ∧
    apiCall (fun _ => .error ⟨"rate_limited", 429⟩) (fun _ => 0)
        = (.error (some ⟨"rate_limited", 429⟩),
           [350, 1000, 350, 2000, 350, 4000, 350, 8000, 350, 10000]) ∧
    apiCall (fun i => if i = 0 then .error ⟨"rate_limited", 429⟩ else .ok 7)
        (fun _ => 0) = (.ok 7, [350, 1000, 350]) := by
  refine ⟨?_, ?_, ?_⟩
  · exact (apiCall_c8 (fun _ => .error ⟨"validation_error", 400⟩)
      (fun _ => 0)).1 ⟨"validation_error", 400⟩ rfl (by decide)
  · have h := (apiCall_c8 (fun _ => .error ⟨"rate_limited", 429⟩)
      (fun _ => 0)).2.1 ⟨"rate_limited", 429⟩ (by decide) (fun i _ => rfl)
    rw [h]
    norm_num [getBackoffDelay, RATE_LIMIT_DELAY]
  · have h := (apiCall_c8
      (fun i => if i = 0 then .error ⟨"rate_limited", 429⟩ else .ok 7)
      (fun _ => 0)).2.2.1 ⟨"rate_limited", 429⟩ 7 rfl (by decide) rfl
    rw [h]
    norm_num [getBackoffDelay, RATE_LIMIT_DELAY]

/-! ## Quick-todo sections (src/unnamed/part_003) -/

/-- `sectionHeading.replace(/[📋📌]/g, '').trim()`: remove the clipboard/pin
emoji, then trim.  (Without a `u` flag the JS class ranges over the surrogate
code units of exactly these two emoji; on the headings passed at the call
sites the effect is removing the two characters.) -/
def stripEmojiTag (s : String) : String :=
  jsTrim (String.mk (s.data.filter fun c => !(c == '📋' || c == '📌')))

/-- The heading test shared by `extractSectionContent` and `deleteSection`:
`text.includes(sectionHeading) || text.includes(strippedHeading)` on the
joined, trimmed (not lower-cased) heading text. -/
def quickSectionMatch (sectionHeading : String) (b : Block) : Bool :=
  jsIncludes (blockTextTrim b) sectionHeading ||
  jsIncludes (blockTextTrim b) (stripEmojiTag sectionHeading)

/-- The `(sectionIndex, endIndex)` bounds computed by
`extractSectionContent` and `deleteSection` (each contains its own copy of
the scan loop), with `nextHeadingIndex === -1` resolved to `blocks.length`. -/
def quickSectionBounds (blocks : List Block) (sectionHeading : String) :
    Option (Nat × Nat) :=
  match sectionLoop (quickSectionMatch sectionHeading) blocks 0 none with
  | none => none
  | some (s, nh) => some (s, nh.getD blocks.length)

/-- One step of the content accumulation of `extractSectionContent`:
dividers are skipped (`continue`); paragraphs and headings with non-empty
trimmed text append it plus a newline; bulleted list items append `"- "`,
the text and a newline. -/
def extractStep (acc : String) (b : Block) : String :=
  if b.type == "divider" then acc
  else
    let acc1 :=
      if b.type == "paragraph" then
        if blockTextTrim b ≠ "" then acc ++ blockTextTrim b ++ "\n" else acc
      else acc
    let acc2 :=
      if isHeadingBlock b then
        if blockTextTrim b ≠ "" then acc1 ++ blockTextTrim b ++ "\n" else acc1
      else acc1
    if b.type == "bulleted_list_item" then
      if blockTextTrim b ≠ "" then acc2 ++ "- " ++ blockTextTrim b ++ "\n"
      else acc2
    else acc2

/-- `extractSectionContent(blocks, sectionHeading)` from src/unnamed/part_003:
the trimmed concatenation of the section body's text, `''` when the heading
is not found. -/
def extractSectionContent (blocks : List Block) (sectionHeading : String) :
    String :=
  match quickSectionBounds blocks sectionHeading with
  | none => ""
  | some (s, e) =>
    jsTrim (((blocks.drop (s + 1)).take (e - (s + 1))).foldl extractStep "")

/-- `deleteSection(pageId, sectionHeading)` from src/unnamed/part_003,
abstracted over the already-fetched block list (the remote fetch and the
per-block delete calls are external; a failing individual delete is logged
and skipped by the source, so the reported flag does not depend on delete
outcomes).  Returns the reported success flag together with the ids of the
blocks whose deletion is attempted, in order. -/
def deleteSection (blocks : List Block) (sectionHeading : String) :
    Bool × List String :=
  match quickSectionBounds blocks sectionHeading with
  | none => (true, [])
  | some (s, e) => (true, ((blocks.drop s).take (e - s)).map Block.id)

theorem sectionLoop_none (match_ : Block → Bool) :
    ∀ (blocks : List Block) (i : Nat),
      (∀ b ∈ blocks, ¬(isHeadingBlock b = true ∧ match_ b = true)) →
      sectionLoop match_ blocks i none = none := by
  intro blocks
  induction blocks with
  | nil => intro i _; rfl
  | cons b rest ih =>
    intro i h
    have hb := h b (List.mem_cons_self b rest)
    have hrest := fun x hx => h x (List.mem_cons_of_mem b hx)
    by_cases hh : isHeadingBlock b = true
    · have hm : match_ b = false := by
        cases hmp : match_ b
        · rfl
        · exact absurd ⟨hh, hmp⟩ hb
      simp only [sectionLoop, hh, if_true, hm, Bool.false_eq_true, if_false]
      exact ih (i + 1) hrest
    · have hh' : isHeadingBlock b = false := by
        cases hpb : isHeadingBlock b
        · rfl
        · exact absurd hpb hh
      simp only [sectionLoop, hh', Bool.false_eq_true, if_false]
      exact ih (i + 1) hrest

/-- C9: when no heading block on the record matches the named section,
`deleteSection` reports success (`true`) — an absent section counts as
already deleted — and attempts no node deletion at all. -/
theorem deleteSection_c9 (blocks : List Block) (sectionHeading : String)
    (h : ∀ b ∈ blocks,
      ¬(isHeadingBlock b = true ∧ quickSectionMatch sectionHeading b = true)) :
    deleteSection blocks sectionHeading = (true, []) := by
  unfold deleteSection quickSectionBounds
  rw [sectionLoop_none (quickSectionMatch sectionHeading) blocks 0 h]

theorem deleteSection_c9_witness :
    deleteSection
      [⟨"a", "paragraph", ["buy milk"]⟩, ⟨"b", "heading_2", ["Notes"]⟩]
      "📌 Project Info" = (true, []) :=
  deleteSection_c9
    [⟨"a", "paragraph", ["buy milk"]⟩, ⟨"b", "heading_2", ["Notes"]⟩]
    "📌 Project Info" (by decide)

/-! ## Categorization routing (src/service/openai_client.js) -/

/-- A `CategorizedBundle`: the five ordered string lists produced by the
external categorization capability. -/
structure Categorized where
  credentials : List String
  contacts : List String
  links : List String
  decisions : List String
  other : List String
deriving DecidableEq, Repr

/-- JS `String.prototype.split` with a one-char separator. -/
def jsSplitChar (sep : Char) (s : String) : List String :=
  (s.data.foldr (fun c acc =>
    match acc with
    | [] => [[c]]
    | a :: as => if c == sep then [] :: a :: as else (c :: a) :: as)
    [[]]).map String.mk

/-- JS `Array.prototype.join` with a separator. -/
def joinWith (sep : String) : List String → String
  | [] => ""
  | l :: ls => ls.foldl (fun acc x => acc ++ sep ++ x) l

/-- `sectionHeading.split(' ').slice(1).join(' ')`. -/
def tailWords (s : String) : String :=
  joinWith " " ((jsSplitChar ' ' s).drop 1)

/-- The heading test of `appendToSection`: the block is a heading whose
joined, trimmed text equals the requested heading or contains the heading
minus its first (emoji) word. -/
def appendHeadingMatch (sectionHeading : String) (b : Block) : Bool :=
  isHeadingBlock b &&
    (blockTextTrim b == sectionHeading ||
     jsIncludes (blockTextTrim b) (tailWords sectionHeading))

/-- `line.trim().replace(/^-\s*/, '')` from the bullet construction. -/
def cleanBulletLine (line : String) : String :=
  match (jsTrim line).data with
  | '-' :: rest => String.mk (rest.dropWhile Char.isWhitespace)
  | _ => jsTrim line

/-- `content.split('\n').filter(line => line.trim().length > 0)`, mapped
through the bullet cleaning. -/
def appendLines (content : String) : List String :=
  ((jsSplitChar '\n' content).filter fun l => 0 < (jsTrim l).length).map
    cleanBulletLine

/-- The default `fallbackSection` argument of `appendToSection`. -/
def defaultFallback : String := "💡 Project Context & Decisions"

/-- Outcome of one physical `blocks.children.append` request. -/
inductive AOut where
  | ok
  | timeout
  | rate429
  | otherErr
deriving DecidableEq, Repr

/-- The routing environment: the project page's top-level blocks (the source
refetches them on every attempt; the page is taken as unchanged during one
routing call) and the outcome of the n-th append request issued. -/
structure PPEnv where
  blocks : List Block
  appendOutcome : Nat → AOut

/-- A successfully persisted append: the requested section heading, the id
and trimmed text of the heading block the bullets were inserted after, and
the bullet lines. -/
structure AppendCall where
  requestedHeading : String
  afterId : String
  afterText : String
  lines : List String
deriving DecidableEq, Repr

/-- The retry loop of `appendToSection` for an already-located heading block
`sb`.  In the source every retry re-runs the whole function with
`retryCount + 1`; under the static block list of `env` the heading lookup
yields the same block on each retry, so the recursion is exactly this loop,
with `budget = 2 - retryCount` remaining retries (the source's guard is
`retryCount < 2`).  A timeout/429 outcome with budget left retries at the
next request number; exhausted budget or any other error reports `false`. -/
def appendAttempts (env : PPEnv) (sectionHeading : String) (sb : Block)
    (lines : List String) : Nat → Nat → Bool × Nat × List AppendCall
  | budget, ctr =>
    match env.appendOutcome ctr, budget with
    | .ok, _ =>
      (true, ctr + 1, [⟨sectionHeading, sb.id, blockTextTrim sb, lines⟩])
    | .timeout, b + 1 => appendAttempts env sectionHeading sb lines b (ctr + 1)
    | .timeout, 0 => (false, ctr + 1, [])
    | .rate429, b + 1 => appendAttempts env sectionHeading sb lines b (ctr + 1)
    | .rate429, 0 => (false, ctr + 1, [])
    | .otherErr, _ => (false, ctr + 1, [])

/-- `appendToSection` as entered with `fallbackSection = null` — the shape of
the source's one fallback hop: a missing heading is terminal (`false`, no
second fallback), a found heading enters the retry loop. -/
def appendNoFallback (env : PPEnv) (sectionHeading content : String)
    (retryCount ctr : Nat) : Bool × Nat × List AppendCall :=
  match env.blocks.find? (appendHeadingMatch sectionHeading) with
  | none => (false, ctr, [])
  | some sb =>
    appendAttempts env sectionHeading sb (appendLines content)
      (2 - retryCount) ctr

/-- `appendToSection(pageId, sectionHeading, content, fallbackSection,
retryCount)` from src/service/openai_client.js, abstracted over the fetched
top-level blocks and the append-request outcomes in `env`; `ctr` numbers the
physical append requests.  Returns the reported flag, the next request
number and the persisted appends.  A missing heading falls back once into
the fallback section, called with no further fallback (`appendNoFallback`),
unless the fallback is absent or equal to the request, which reports
`false`; a found heading runs the retry loop (`appendAttempts`). -/
def appendToSection (env : PPEnv) (sectionHeading content : String)
    (fallbackSection : Option String) (retryCount : Nat) (ctr : Nat) :
    Bool × Nat × List AppendCall :=
  match env.blocks.find? (appendHeadingMatch sectionHeading) with
  | none =>
    match fallbackSection with
    | some fb =>
      if sectionHeading ≠ fb then
        appendNoFallback env fb content retryCount ctr
      else (false, ctr, [])
    | none => (false, ctr, [])
  | some sb =>
    appendAttempts env sectionHeading sb (appendLines content)
      (2 - retryCount) ctr

/-- One category loop of `updateProjectPage`: append each item separately to
`heading` (with the default fallback), counting successes and threading the
request counter. -/
def appendMany (env : PPEnv) (heading : String) (items : List String)
    (ctr : Nat) : Nat × Nat × List AppendCall :=
  match items with
  | [] => (0, ctr, [])
  | it :: rest =>
    let r := appendToSection env heading it (some defaultFallback) 0 ctr
    let rs := appendMany env heading rest r.2.1
    ((if r.1 then 1 else 0) + rs.1, rs.2.1, r.2.2 ++ rs.2.2)

/-- `updateProjectPage(projectName, categorized, ...)` from
src/service/openai_client.js, abstracted over the result of
`findProjectPage` (`pageFound`) and the append outcomes in `env`:
credentials, contacts and links are appended item by item to their sections;
the decisions and `other` lists are each joined into one multi-line append
aimed directly at the decisions-log section; the call reports `true` iff at
least one append succeeded.  Returns the flag and every persisted append. -/
def updateProjectPage (env : PPEnv) (pageFound : Bool) (c : Categorized) :
    Bool × List AppendCall :=
  if pageFound then
    let r1 := appendMany env "🔑 Credentials & Access" c.credentials 0
    let r2 := appendMany env "👥 Key Contacts" c.contacts r1.2.1
    let r3 := appendMany env "🔗 Important Links" c.links r2.2.1
    let r4 :=
      if c.decisions.isEmpty then (0, r3.2.1, ([] : List AppendCall))
      else
        let r := appendToSection env defaultFallback
          (joinWith "\n" c.decisions) (some defaultFallback) 0 r3.2.1
        ((if r.1 then 1 else 0), r.2.1, r.2.2)
    let r5 :=
      if c.other.isEmpty then (0, r4.2.1, ([] : List AppendCall))
      else
        let r := appendToSection env defaultFallback
          (joinWith "\n" c.other) (some defaultFallback) 0 r4.2.1
        ((if r.1 then 1 else 0), r.2.1, r.2.2)
    (decide (0 < r1.1 + r2.1 + r3.1 + r4.1 + r5.1),
      r1.2.2 ++ r2.2.2 ++ r3.2.2 ++ r4.2.2 ++ r5.2.2)
  else (false, [])
/-- C6: for an append whose requested section is not the decisions-log
catch-all: when the requested heading is not found among the page's
top-level blocks, the call becomes exactly one fallback into the catch-all
carrying the same content (the data is not dropped), with no further
fallback available; and when the catch-all heading is not found either, the
call reports `false` without issuing any append request and without a second
fallback. -/
theorem appendToSection_c6 (env : PPEnv) (sectionHeading content : String)
    (ctr : Nat)
    (hnf : env.blocks.find? (appendHeadingMatch sectionHeading) = none)
    (hne : sectionHeading ≠ defaultFallback) :
    appendToSection env sectionHeading content (some defaultFallback) 0 ctr =
      appendToSection env defaultFallback content none 0 ctr ∧
    (env.blocks.find? (appendHeadingMatch defaultFallback) = none →
      appendToSection env sectionHeading content (some defaultFallback) 0 ctr
        = (false, ctr, [])) := by
  have h1 : appendToSection env sectionHeading content (some defaultFallback)
      0 ctr = appendToSection env defaultFallback content none 0 ctr := by
    unfold appendToSection appendNoFallback
    simp only [hnf, ne_eq, hne, not_false_eq_true, if_true]
  refine ⟨h1, fun h2 => ?_⟩
  rw [h1]
  unfold appendToSection
  simp only [h2]

theorem appendAttempts_calls (env : PPEnv) (h : String) (sb : Block)
    (lines : List String) :
    ∀ (budget ctr : Nat) (call : AppendCall),
      call ∈ (appendAttempts env h sb lines budget ctr).2.2 →
      call = ⟨h, sb.id, blockTextTrim sb, lines⟩ := by
  intro budget
  induction budget with
  | zero =>
    intro ctr call hcall
    unfold appendAttempts at hcall
    cases hout : env.appendOutcome ctr with
    | ok => simp [hout] at hcall; exact hcall
    | timeout => simp [hout] at hcall
    | rate429 => simp [hout] at hcall
    | otherErr => simp [hout] at hcall
  | succ b ih =>
    intro ctr call hcall
    unfold appendAttempts at hcall
    cases hout : env.appendOutcome ctr with
    | ok => simp [hout] at hcall; exact hcall
    | timeout =>
      simp only [hout] at hcall
      exact ih (ctr + 1) call hcall
    | rate429 =>
      simp only [hout] at hcall
      exact ih (ctr + 1) call hcall
    | otherErr => simp [hout] at hcall

/-- Every append persisted by a call whose fallback is absent or equal to the
requested heading is anchored at the block located for that same heading. -/
theorem appendToSection_self_calls (env : PPEnv) (h content : String)
    (fb : Option String) (r ctr : Nat) (hfb : fb = none ∨ fb = some h) :
    ∀ call ∈ (appendToSection env h content fb r ctr).2.2,
      ∃ sb, env.blocks.find? (appendHeadingMatch h) = some sb ∧
        call = ⟨h, sb.id, blockTextTrim sb, appendLines content⟩ := by
  intro call hcall
  unfold appendToSection at hcall
  cases hfind : env.blocks.find? (appendHeadingMatch h) with
  | none =>
    rcases hfb with rfl | rfl
    · simp [hfind] at hcall
    · simp [hfind] at hcall
  | some sb =>
    simp only [hfind] at hcall
    exact ⟨sb, rfl,
      appendAttempts_calls env h sb (appendLines content) (2 - r) ctr call
        hcall⟩

/-- C5: routing a bundle whose only non-empty category is `decisions`
performs appends that all request the decisions-log section; each persisted
append is anchored at a heading block matching the decisions-log test, whose
text is therefore never one of the credentials, contacts or links section
headings of the target record. -/
theorem updateProjectPage_c5 (env : PPEnv) (pageFound : Bool)
    (ds : List String) (hds : ds ≠ []) :
    ∀ call ∈ (updateProjectPage env pageFound ⟨[], [], [], ds, []⟩).2,
      call.requestedHeading = defaultFallback ∧
      (call.afterText == defaultFallback ||
        jsIncludes call.afterText (tailWords defaultFallback)) = true ∧
      call.afterText ≠ "🔑 Credentials & Access" ∧
      call.afterText ≠ "👥 Key Contacts" ∧
      call.afterText ≠ "🔗 Important Links" := by
  intro call hcall
  cases pageFound with
  | false => simp [updateProjectPage] at hcall
  | true =>
    have hds' : ds.isEmpty = false := by
      cases ds with
      | nil => exact absurd rfl hds
      | cons a as => rfl
    simp only [updateProjectPage, appendMany, hds', Bool.false_eq_true,
      if_false, if_true, List.isEmpty_nil, List.nil_append, List.append_nil]
      at hcall
    obtain ⟨sb, hfind, rfl⟩ := appendToSection_self_calls env
      defaultFallback (joinWith "\n" ds) (some defaultFallback) 0 0
      (Or.inr rfl) call hcall
    have hp := List.find?_some hfind
    simp only [appendHeadingMatch, Bool.and_eq_true] at hp
    refine ⟨rfl, hp.2, ?_, ?_, ?_⟩
    · intro heq
      have heq' : blockTextTrim sb = "🔑 Credentials & Access" := heq
      rw [heq'] at hp
      exact absurd hp.2 (by decide)
    · intro heq
      have heq' : blockTextTrim sb = "👥 Key Contacts" := heq
      rw [heq'] at hp
      exact absurd hp.2 (by decide)
    · intro heq
      have heq' : blockTextTrim sb = "🔗 Important Links" := heq
      rw [heq'] at hp
      exact absurd hp.2 (by decide)

/-- A target page carrying the credentials section and the decisions-log
section. -/
def c5Blocks : List Block :=
  [⟨"h1", "heading_2", ["🔑 Credentials & Access"]⟩,
   ⟨"h2", "heading_2", ["💡 Project Context & Decisions"]⟩]

def c5Env : PPEnv := ⟨c5Blocks, fun _ => .ok⟩

def c5Call : AppendCall :=
  ⟨defaultFallback, "h2", "💡 Project Context & Decisions",
   ["Decision: ship v2"]⟩

theorem updateProjectPage_c5_witness :
    c5Call.requestedHeading = defaultFallback ∧
    (c5Call.afterText == defaultFallback ||
      jsIncludes c5Call.afterText (tailWords defaultFallback)) = true ∧
    c5Call.afterText ≠ "🔑 Credentials & Access" ∧
    c5Call.afterText ≠ "👥 Key Contacts" ∧
    c5Call.afterText ≠ "🔗 Important Links" :=
  updateProjectPage_c5 c5Env true ["Decision: ship v2"] (by decide) c5Call
    (by decide)

/-- A page with no matching section headings at all, for the terminal
fallback-miss path of C6. -/
def c6EnvEmpty : PPEnv := ⟨[⟨"t", "paragraph", ["just text"]⟩], fun _ => .ok⟩

theorem appendToSection_c6_witness :
    appendToSection c6EnvEmpty "🔗 Important Links" "https://example.com"
        (some defaultFallback) 0 0 =
      appendToSection c6EnvEmpty defaultFallback "https://example.com" none
        0 0 ∧
    appendToSection c6EnvEmpty "🔗 Important Links" "https://example.com"
        (some defaultFallback) 0 0 = (false, 0, []) := by
  have h := appendToSection_c6 c6EnvEmpty "🔗 Important Links"
    "https://example.com" 0 (by rfl) (by decide)
  exact ⟨h.1, h.2 (by rfl)⟩

/-! ## Quick-entry dual-channel state machine (`processQuickTodo`,
src/unnamed/part_003) -/

/-- One task parsed by the external `parseQuickTodo` capability. -/
structure ParsedTask where
  title : String
  project : Option String
  priority : String
  due : Option String
deriving DecidableEq, Repr

/-- The quick-entry record's own fields as read by `processQuickTodo`:
`titleTexts` are the `plain_text` fragments of the Title property, the
select/date properties are `none` when unset. -/
structure QTPage where
  id : String
  titleTexts : List String
  project : Option String
  priority : Option String
  status : Option String
  due : Option String
deriving DecidableEq, Repr

/-- Outcomes of the external calls made by one `processQuickTodo` run:
`parseQuickTodo`, `updatePage`, the per-index `createPage` calls (their
errors are caught individually), `categorizeProjectInfo`, `updateProjectPage`
(`.ok b` is its returned flag, `.error` a thrown error) and the archive
update.  The config file read for sibling-task creation is assumed to
succeed. -/
structure QTEnv where
  parseResult : Except String (List ParsedTask)
  updateResult : Except String Unit
  createOk : Nat → Bool
  categorizeResult : Except String Categorized
  routeResult : Except String Bool
  archiveOk : Bool

/-- A persisted side effect of one `processQuickTodo` run: a property update
or archive of the record itself, a sibling-task creation, the deletion of
the record's info section, or a routing of the categorized bundle into a
project page.  Failed remote calls persist nothing and so record no
action (in particular `updateProjectPage` returning `false` means zero
appends succeeded). -/
inductive QTAct where
  | updateProps (pageId : String)
  | createTask (title : String)
  | routeBundle (project : String)
  | deleteInfoSection (pageId : String)
  | archivePage (pageId : String)
deriving DecidableEq, Repr

/-- The result object returned on the cleanup paths. -/
structure QTResult where
  taskCreated : Bool
  projectInfoRouted : Bool
  pageDeleted : Bool
deriving DecidableEq, Repr

/-- The observable outcome of a run: the two internal success flags, the
returned result (`none` for the `return null` paths) and the persisted
action trace. -/
structure QTOutcome where
  taskSuccess : Bool
  projectInfoSuccess : Bool
  result : Option QTResult
  acts : List QTAct
deriving DecidableEq, Repr

/-- The minimal-title test used by step 1 (`!currentTitleText ||
currentTitleText.length < 5 || ...includes('untitled')`). -/
def qtTitleMinimal (page : QTPage) : Bool :=
  let t := jsTrim (String.join page.titleTexts)
  t == "" || t.length < 5 || jsIncludes (jsToLower t) "untitled"

/-- The names of the properties step 1 would update for the first parsed
task: each only where the record's own field is unset (Status is defaulted
to Backlog when unset). -/
def qtUpdates (page : QTPage) (ft : ParsedTask) : List String :=
  (if qtTitleMinimal page then ["Title"] else []) ++
  (if page.project.isNone && ft.project.isSome then ["Project"] else []) ++
  (if page.priority.isNone then ["Priority"] else []) ++
  (if page.due.isNone && ft.due.isSome then ["Due"] else []) ++
  (if page.status.isNone then ["Status"] else [])

/-- The sibling `createPage` calls for tasks after the first, keeping those
whose remote call succeeded (a failed creation is caught, logged and
persists nothing). -/
def createActs (env : QTEnv) (rest : List ParsedTask) : List QTAct :=
  rest.enum.filterMap fun it =>
    if env.createOk (it.1 + 1) then some (QTAct.createTask it.2.title)
    else none

/-- Step 1 of `processQuickTodo` (the task channel): skipped unless the task
content is non-empty and longer than 3 chars; a parse error is caught with
`taskSuccess` still false; zero parsed tasks return `null` for the whole
function (`none` here); otherwise the record update (when some property
needs setting) and the sibling creations run, and `taskSuccess` is set.
Returns `none` for the early `return null`, otherwise
`some (taskSuccess, persisted acts)`. -/
def qtStep1 (env : QTEnv) (page : QTPage) (taskContent : String) :
    Option (Bool × List QTAct) :=
  if taskContent != "" && 3 < taskContent.length then
    match env.parseResult with
    | .error _ => some (false, [])
    | .ok [] => none
    | .ok (ft :: rest) =>
      if (qtUpdates page ft).isEmpty then
        some (true, createActs env rest)
      else
        match env.updateResult with
        | .error _ => some (false, [])
        | .ok _ =>
          some (true, QTAct.updateProps page.id :: createActs env rest)
  else some (false, [])

/-- `line.replace(/^[-•]\s*/, '').trim()` on an info-section line. -/
def stripBulletGlyph (line : String) : String :=
  match line.data with
  | c :: rest =>
    if c == '-' || c == '•' then
      jsTrim (String.mk (rest.dropWhile Char.isWhitespace))
    else jsTrim line
  | [] => jsTrim line

/-- The bullet list step 2 builds from the info content: split on newlines,
strip bullet glyphs, keep non-empty lines. -/
def qtBullets (projectInfoContent : String) : List String :=
  ((jsSplitChar '\n' projectInfoContent).map stripBulletGlyph).filter
    fun l => 0 < l.length

/-- The keyword table step 2 uses to detect the destination project (a
separate, smaller table than the inference resolver's). -/
def qtProjectKeywords : List (String × List String) :=
  [("ClickUp", ["clickup", "click up"]),
   ("HubSpot", ["hubspot", "hub spot"]),
   ("Docebo", ["docebo"]),
   ("AI Sales", ["ai sales", "retell"]),
   ("Insider Knowledge", ["insider", "merlin"]),
   ("PD OTN", ["pd otn", "otn"]),
   ("Podcast", ["podcast"]),
   ("Quarterly Economic Review", ["qer", "economic"])]

/-- The project detection of step 2: first table entry with a keyword
contained in the lower-cased, space-joined bullets; default Support/Other. -/
def detectProject (bullets : List String) : String :=
  match qtProjectKeywords.find? (fun pk =>
      pk.2.any fun kw => jsIncludes (jsToLower (joinWith " " bullets)) kw) with
  | some pk => pk.1
  | none => "Support/Other"

/-- Step 2 of `processQuickTodo` (the info channel): skipped unless the info
content is non-empty and longer than 5 chars and yields at least one bullet;
a categorization or routing error is caught with `projectInfoSuccess` still
false; `projectInfoSuccess` is set iff `updateProjectPage` reported true. -/
def qtStep2 (env : QTEnv) (projectInfoContent : String) : Bool × List QTAct :=
  if projectInfoContent != "" && 5 < projectInfoContent.length then
    if (qtBullets projectInfoContent).isEmpty then (false, [])
    else
      match env.categorizeResult with
      | .error _ => (false, [])
      | .ok _ =>
        match env.routeResult with
        | .error _ => (false, [])
        | .ok updated =>
          (updated,
            if updated then
              [QTAct.routeBundle (detectProject (qtBullets projectInfoContent))]
            else [])
  else (false, [])

def taskSectionHeading : String := "📋 Task"

def infoSectionHeading : String := "📌 Project Info"

/-- The body of `processQuickTodo` after the two section contents are
extracted: both-empty is a no-op `null`; step 1, then step 2, then the
cleanup of step 3 — scenario A (both filled and both succeeded) deletes the
info section and keeps the record; scenario B (only info filled and it
succeeded) archives the whole record, reporting `pageDeleted` iff the
archive call succeeded; scenario C (only task filled and it succeeded)
deletes the empty info section; if at least one flag is set but no scenario
matches, the flags are reported as-is; if neither flag is set, `null` is
returned and nothing was persisted. -/
def processQuickTodoCore (env : QTEnv) (page : QTPage)
    (taskContent projectInfoContent : String) : QTOutcome :=
  if taskContent == "" && projectInfoContent == "" then ⟨false, false, none, []⟩
  else
    match qtStep1 env page taskContent with
    | none => ⟨false, false, none, []⟩
    | some (ts, acts1) =>
      let s2 := qtStep2 env projectInfoContent
      let is := s2.1
      let acts2 := s2.2
      if ts || is then
        if taskContent != "" && projectInfoContent != "" && ts && is then
          ⟨ts, is, some ⟨true, true, false⟩,
            acts1 ++ acts2 ++ [QTAct.deleteInfoSection page.id]⟩
        else if taskContent == "" && projectInfoContent != "" && is then
          if env.archiveOk then
            ⟨ts, is, some ⟨false, true, true⟩,
              acts1 ++ acts2 ++ [QTAct.archivePage page.id]⟩
          else
            ⟨ts, is, some ⟨false, true, false⟩, acts1 ++ acts2⟩
        else if taskContent != "" && projectInfoContent == "" && ts then
          ⟨ts, is, some ⟨true, false, false⟩,
            acts1 ++ acts2 ++ [QTAct.deleteInfoSection page.id]⟩
        else
          ⟨ts, is, some ⟨ts, is, false⟩, acts1 ++ acts2⟩
      else ⟨ts, is, none, acts1 ++ acts2⟩

/-- `processQuickTodo(page)` from src/unnamed/part_003: extract the two
channel contents from the record's blocks, then run the dual-channel body. -/
def processQuickTodo (env : QTEnv) (page : QTPage) (blocks : List Block) :
    QTOutcome :=
  processQuickTodoCore env page
    (extractSectionContent blocks taskSectionHeading)
    (extractSectionContent blocks infoSectionHeading)

theorem createActs_mem (env : QTEnv) (rest : List ParsedTask) :
    ∀ a ∈ createActs env rest, ∃ t, a = QTAct.createTask t := by
  intro a ha
  unfold createActs at ha
  rw [List.mem_filterMap] at ha
  obtain ⟨it, _, hit⟩ := ha
  by_cases hc : env.createOk (it.1 + 1)
  · rw [if_pos hc] at hit
    exact ⟨it.2.title, (Option.some.inj hit).symm⟩
  · rw [if_neg hc] at hit
    cases hit

/-- Step 1 returns the early-exit, or a failure with no persisted action, or
success with a trace of property updates and sibling creations only. -/
theorem qtStep1_shape (env : QTEnv) (page : QTPage) (tc : String) :
    qtStep1 env page tc = none ∨
    qtStep1 env page tc = some (false, []) ∨
    ∃ acts, qtStep1 env page tc = some (true, acts) ∧
      ∀ a ∈ acts,
        (∃ t, a = QTAct.createTask t) ∨ a = QTAct.updateProps page.id := by
  unfold qtStep1
  split
  · cases hp : env.parseResult with
    | error e => exact Or.inr (Or.inl rfl)
    | ok tasks =>
      cases tasks with
      | nil => exact Or.inl rfl
      | cons ft rest =>
        dsimp only
        by_cases hu : (qtUpdates page ft).isEmpty
        · rw [if_pos hu]
          refine Or.inr (Or.inr ⟨createActs env rest, rfl, ?_⟩)
          intro a ha
          exact Or.inl (createActs_mem env rest a ha)
        · rw [if_neg hu]
          cases hup : env.updateResult with
          | error e => exact Or.inr (Or.inl rfl)
          | ok u =>
            refine Or.inr (Or.inr ⟨_, rfl, ?_⟩)
            intro a ha
            rcases List.mem_cons.1 ha with rfl | ha
            · exact Or.inr rfl
            · exact Or.inl (createActs_mem env rest a ha)
  · exact Or.inr (Or.inl rfl)

/-- Step 2 either fails with no persisted action or succeeds with exactly one
routing action. -/
theorem qtStep2_shape (env : QTEnv) (ic : String) :
    qtStep2 env ic = (false, []) ∨
    ∃ d, qtStep2 env ic = (true, [QTAct.routeBundle d]) := by
  unfold qtStep2
  split
  · split
    · exact Or.inl rfl
    · cases hc : env.categorizeResult with
      | error e => exact Or.inl rfl
      | ok c =>
        cases hr : env.routeResult with
        | error e => exact Or.inl rfl
        | ok updated =>
          cases updated with
          | false => exact Or.inl (by simp)
          | true => exact Or.inr ⟨detectProject (qtBullets ic), by simp⟩
  · exact Or.inl rfl

/-- C4 over the two extracted channel contents: (1) only the info channel
present and succeeded, and the archive call succeeds → the record is
archived and the result reports `pageDeleted = true`; (2) both channels
present and both succeeded → the info section is deleted, the record is kept
(`pageDeleted = false`) and it is never archived; (3) neither channel
succeeded → the returned result is `null` and nothing at all was persisted
(no partial-failure marker). -/
theorem processQuickTodoCore_c4 (env : QTEnv) (page : QTPage)
    (tc ic : String) :
    (tc = "" → ic ≠ "" →
      (processQuickTodoCore env page tc ic).projectInfoSuccess = true →
      env.archiveOk = true →
      (processQuickTodoCore env page tc ic).result =
        some ⟨false, true, true⟩ ∧
      QTAct.archivePage page.id ∈ (processQuickTodoCore env page tc ic).acts) ∧
    (tc ≠ "" → ic ≠ "" →
      (processQuickTodoCore env page tc ic).taskSuccess = true →
      (processQuickTodoCore env page tc ic).projectInfoSuccess = true →
      (processQuickTodoCore env page tc ic).result =
        some ⟨true, true, false⟩ ∧
      QTAct.deleteInfoSection page.id ∈
        (processQuickTodoCore env page tc ic).acts ∧
      QTAct.archivePage page.id ∉
        (processQuickTodoCore env page tc ic).acts) ∧
    ((processQuickTodoCore env page tc ic).taskSuccess = false →
      (processQuickTodoCore env page tc ic).projectInfoSuccess = false →
      (processQuickTodoCore env page tc ic).result = none ∧
      (processQuickTodoCore env page tc ic).acts = []) := by
  refine ⟨?_, ?_, ?_⟩
  · intro htc hic hinfo harch
    subst htc
    have hic' : (ic == "") = false := beq_eq_false_iff_ne.2 hic
    have hs1 : qtStep1 env page "" = some (false, []) := rfl
    rcases qtStep2_shape env ic with h2 | ⟨d, h2⟩
    · exfalso
      simp [processQuickTodoCore, hs1, h2, hic', bne] at hinfo
    · constructor
      · simp [processQuickTodoCore, hs1, h2, hic', bne, harch]
      · simp [processQuickTodoCore, hs1, h2, hic', bne, harch]
  · intro htc hic hts his
    have htc' : (tc == "") = false := beq_eq_false_iff_ne.2 htc
    have hic' : (ic == "") = false := beq_eq_false_iff_ne.2 hic
    rcases qtStep1_shape env page tc with h1 | h1 | ⟨acts1, h1, hmem1⟩
    · exfalso
      simp [processQuickTodoCore, h1, htc'] at hts
    · exfalso
      rcases qtStep2_shape env ic with h2 | ⟨d, h2⟩ <;>
        cases harch : env.archiveOk <;>
          simp [processQuickTodoCore, h1, h2, htc', hic', bne, harch] at hts
    · rcases qtStep2_shape env ic with h2 | ⟨d, h2⟩
      · exfalso
        simp [processQuickTodoCore, h1, h2, htc', hic', bne] at his
      · have hnotin : QTAct.archivePage page.id ∉ acts1 := by
          intro hmem
          rcases hmem1 _ hmem with ⟨t, ht⟩ | ht <;> simp at ht
        refine ⟨?_, ?_, ?_⟩
        · simp [processQuickTodoCore, h1, h2, htc', hic', bne]
        · simp [processQuickTodoCore, h1, h2, htc', hic', bne]
        · simp [processQuickTodoCore, h1, h2, htc', hic', bne, hnotin]
  · intro hts his
    by_cases htc : tc = ""
    · subst htc
      by_cases hic : ic = ""
      · subst hic
        exact ⟨rfl, rfl⟩
      · have hic' : (ic == "") = false := beq_eq_false_iff_ne.2 hic
        have hs1 : qtStep1 env page "" = some (false, []) := rfl
        rcases qtStep2_shape env ic with h2 | ⟨d, h2⟩
        · constructor <;> simp [processQuickTodoCore, hs1, h2, hic', bne]
        · exfalso
          cases harch : env.archiveOk <;>
            simp [processQuickTodoCore, hs1, h2, hic', bne, harch] at his
    · have htc' : (tc == "") = false := beq_eq_false_iff_ne.2 htc
      rcases qtStep1_shape env page tc with h1 | h1 | ⟨acts1, h1, hmem1⟩
      · constructor <;> simp [processQuickTodoCore, h1, htc']
      · rcases qtStep2_shape env ic with h2 | ⟨d, h2⟩
        · constructor <;> simp [processQuickTodoCore, h1, h2, htc', bne]
        · exfalso
          by_cases hic : ic = ""
          · subst hic
            simp [processQuickTodoCore, h1, qtStep2] at h2
          · have hic' : (ic == "") = false := beq_eq_false_iff_ne.2 hic
            cases harch : env.archiveOk <;>
              simp [processQuickTodoCore, h1, h2, htc', hic', bne, harch]
                at his
      · exfalso
        rcases qtStep2_shape env ic with h2 | ⟨d, h2⟩ <;>
          by_cases hic : ic = ""
        · subst hic
          simp [processQuickTodoCore, h1, h2, htc', bne] at hts
        · have hic' : (ic == "") = false := beq_eq_false_iff_ne.2 hic
          simp [processQuickTodoCore, h1, h2, htc', hic', bne] at hts
        · subst hic
          simp [processQuickTodoCore, h1, qtStep2] at h2
        · have hic' : (ic == "") = false := beq_eq_false_iff_ne.2 hic
          cases harch : env.archiveOk <;>
            simp [processQuickTodoCore, h1, h2, htc', hic', bne, harch] at hts

/-- C4: the dual-channel state machine on a record's blocks — the three
cleanup behaviours of the claim, with the channel presence given by the
extracted section contents. -/
theorem processQuickTodo_c4 (env : QTEnv) (page : QTPage)
    (blocks : List Block) :
    (extractSectionContent blocks taskSectionHeading = "" →
      extractSectionContent blocks infoSectionHeading ≠ "" →
      (processQuickTodo env page blocks).projectInfoSuccess = true →
      env.archiveOk = true →
      (processQuickTodo env page blocks).result = some ⟨false, true, true⟩ ∧
      QTAct.archivePage page.id ∈ (processQuickTodo env page blocks).acts) ∧
    (extractSectionContent blocks taskSectionHeading ≠ "" →
      extractSectionContent blocks infoSectionHeading ≠ "" →
      (processQuickTodo env page blocks).taskSuccess = true →
      (processQuickTodo env page blocks).projectInfoSuccess = true →
      (processQuickTodo env page blocks).result = some ⟨true, true, false⟩ ∧
      QTAct.deleteInfoSection page.id ∈
        (processQuickTodo env page blocks).acts ∧
      QTAct.archivePage page.id ∉ (processQuickTodo env page blocks).acts) ∧
    ((processQuickTodo env page blocks).taskSuccess = false →
      (processQuickTodo env page blocks).projectInfoSuccess = false →
      (processQuickTodo env page blocks).result = none ∧
      (processQuickTodo env page blocks).acts = []) :=
  processQuickTodoCore_c4 env page
    (extractSectionContent blocks taskSectionHeading)
    (extractSectionContent blocks infoSectionHeading)

def c4Page : QTPage := ⟨"qt1", [], none, none, none, none⟩

/-- A record carrying only the info channel. -/
def c4BlocksInfoOnly : List Block :=
  [⟨"i0", "heading_2", ["📌 Project Info"]⟩,
   ⟨"i1", "paragraph", ["hubspot password hunter2"]⟩]

/-- A record carrying both channels. -/
def c4BlocksBoth : List Block :=
  [⟨"b0", "heading_2", ["📋 Task"]⟩,
   ⟨"b1", "paragraph", ["call Karen tomorrow"]⟩,
   ⟨"b2", "heading_2", ["📌 Project Info"]⟩,
   ⟨"b3", "paragraph", ["hubspot api key abc"]⟩]

/-- All external calls succeed. -/
def c4EnvOk : QTEnv :=
  ⟨.ok [⟨"Call Karen", none, "Medium", none⟩], .ok (), fun _ => true,
   .ok ⟨[], [], [], [], []⟩, .ok true, true⟩

/-- Both classification calls fail. -/
def c4EnvFail : QTEnv :=
  ⟨.error "parse failed", .ok (), fun _ => true, .error "categorize failed",
   .ok true, true⟩

theorem processQuickTodo_c4_witness :
    (processQuickTodo c4EnvOk c4Page c4BlocksInfoOnly).result =
      some ⟨false, true, true⟩ ∧
    QTAct.archivePage "qt1" ∈
      (processQuickTodo c4EnvOk c4Page c4BlocksInfoOnly).acts ∧
    (processQuickTodo c4EnvOk c4Page c4BlocksBoth).result =
      some ⟨true, true, false⟩ ∧
    QTAct.deleteInfoSection "qt1" ∈
      (processQuickTodo c4EnvOk c4Page c4BlocksBoth).acts ∧
    QTAct.archivePage "qt1" ∉
      (processQuickTodo c4EnvOk c4Page c4BlocksBoth).acts ∧
    (processQuickTodo c4EnvFail c4Page c4BlocksBoth).result = none ∧
    (processQuickTodo c4EnvFail c4Page c4BlocksBoth).acts = [] := by
  have h1 := (processQuickTodo_c4 c4EnvOk c4Page c4BlocksInfoOnly).1
    (by decide) (by decide) (by decide) rfl
  have h2 := (processQuickTodo_c4 c4EnvOk c4Page c4BlocksBoth).2.1
    (by decide) (by decide) (by decide) (by decide)
  have h3 := (processQuickTodo_c4 c4EnvFail c4Page c4BlocksBoth).2.2
    (by decide) (by decide)
  exact ⟨h1.1, h1.2, h2.1, h2.2.1, h2.2.2, h3.1, h3.2⟩

end NFM
